import Mathlib

/-!
Verification development for the SpecRun OpenAPI-to-tool pipeline.

The definitions below are a shallow embedding of the TypeScript sources:
JSON values become the `Json` inductive, JavaScript objects become
association lists, `Map`s become association lists with set/delete
helpers, and functions with side effects (the confirmation-token table,
the hot-reload base-URL push) become explicit state-passing functions.
External host primitives (the HTTP transport, the WHATWG URL
re-serializer) are taken as parameters of the functions that consume
them, mirroring the spec's treatment of them as external collaborators.
-/

/-- JSON values, the dynamic data the TypeScript code manipulates
(`any`-typed schema fragments, argument records, bodies). Object fields
keep insertion order, as JavaScript objects do. -/
inductive Json where
  | null
  | bool (b : Bool)
  | num (n : Int)
  | str (s : String)
  | arr (elems : List Json)
  | obj (fields : List (String × Json))

/-- First-match lookup of a field in a JSON object's field list, the
embedding of JavaScript property access `o[k]` (returns `none` for a
JavaScript `undefined`). -/
def jsonLookup : List (String × Json) → String → Option Json
  | [], _ => none
  | (k, v) :: rest, key => if k = key then some v else jsonLookup rest key

/-- Property access on an arbitrary JSON value: only objects have
(own, data) properties here. -/
def Json.getField : Json → String → Option Json
  | Json.obj fields, key => jsonLookup fields key
  | _, _ => none

/-- JavaScript truthiness of a JSON value (`null`, `false`, `0` and the
empty string are falsy; arrays and objects are always truthy). -/
def jsTruthy : Json → Bool
  | Json.null => false
  | Json.bool b => b
  | Json.num n => n != 0
  | Json.str s => s != ""
  | Json.arr _ => true
  | Json.obj _ => true

/-- Truthiness of a possibly-absent value (`undefined` is falsy). -/
def jsTruthyOpt : Option Json → Bool
  | none => false
  | some v => jsTruthy v

/- ===== String helpers =====
Reimplemented over character lists (rather than through `Substring`
positions) so that concrete instances reduce definitionally; they agree
with the JavaScript string operations they stand for on the ASCII data
this program handles. -/

/-- `s.endsWith(sfx)`. -/
def strEndsWith (s sfx : String) : Bool :=
  sfx.data.isSuffixOf s.data

/-- `s.startsWith(pre)`. -/
def strStartsWith (s p : String) : Bool :=
  p.data.isPrefixOf s.data

/-- Removes the last `n` characters (`s.slice(0, -n)`). -/
def strDropRight (s : String) (n : Nat) : String :=
  String.mk (s.data.take (s.data.length - n))

/-- `s.toLowerCase()`. -/
def strToLower (s : String) : String :=
  String.mk (s.data.map Char.toLower)

/-- `s.toUpperCase()`. -/
def strToUpper (s : String) : String :=
  String.mk (s.data.map Char.toUpper)

/-- Substring containment on character lists. -/
def listIsInfix (pat : List Char) : List Char → Bool
  | [] => pat.isPrefixOf []
  | c :: rest => pat.isPrefixOf (c :: rest) || listIsInfix pat rest

/-- `s.includes(pat)`. -/
def strContainsSub (s pat : String) : Bool :=
  listIsInfix pat.data s.data

/- ===== Auth Resolver (src/utils/auth.ts: loadAuthConfig) ===== -/

/-- The three credential kinds of an Auth Record. -/
inductive AuthType where
  | bearer
  | apiKey
  | basic
deriving DecidableEq

/-- Which field of the Auth Record a classified variable writes
(the `configKey` local of `loadAuthConfig`). -/
inductive AuthField where
  | token
  | username
  | password
deriving DecidableEq

/-- One Auth Record: per-API credentials derived from the environment. -/
structure AuthEntry where
  type : AuthType
  token : Option String := none
  username : Option String := none
  password : Option String := none
  headerName : Option String := none
deriving DecidableEq

/-- The Auth Record map, keyed by lower-cased API name. -/
abbrev AuthConfig := List (String × AuthEntry)

/-- First-match lookup in the Auth Record map. -/
def authGet : AuthConfig → String → Option AuthEntry
  | [], _ => none
  | (k, v) :: rest, name => if k = name then some v else authGet rest name

/-- Key update in the Auth Record map (replace the existing binding,
else append), the embedding of `authConfig[apiName] = ...`. -/
def authSet : AuthConfig → String → AuthEntry → AuthConfig
  | [], name, e => [(name, e)]
  | (k, v) :: rest, name, e =>
    if k = name then (k, e) :: rest else (k, v) :: authSet rest name e

/-- Matches the anchored pattern `(.+)sfx`: the key must end with the
given suffix with a non-empty remainder, which is returned. -/
def authKeySuffix (key sfx : String) : Option String :=
  if strEndsWith key sfx && sfx.length < key.length then
    some (strDropRight key sfx.length)
  else
    none

/-- The suffix-precedence classification of one environment-variable
name (`_API_KEY`, then `_BEARER_TOKEN`, then `_TOKEN` not containing
`BEARER`, then `_USERNAME`, then `_PASSWORD`), returning the matched
stem, the auth type and the record field to set. -/
def classifyAuthKey (key : String) : Option (String × AuthType × AuthField) :=
  match authKeySuffix key "_API_KEY" with
  | some stem => some (stem, AuthType.apiKey, AuthField.token)
  | none =>
  match authKeySuffix key "_BEARER_TOKEN" with
  | some stem => some (stem, AuthType.bearer, AuthField.token)
  | none =>
  match authKeySuffix key "_TOKEN" with
  | some stem =>
    if !(strContainsSub key "BEARER") then
      some (stem, AuthType.bearer, AuthField.token)
    else
      none
  | none =>
  match authKeySuffix key "_USERNAME" with
  | some stem => some (stem, AuthType.basic, AuthField.username)
  | none =>
  match authKeySuffix key "_PASSWORD" with
  | some stem => some (stem, AuthType.basic, AuthField.password)
  | none => none

/-- Writes the classified field of an Auth Record. -/
def setAuthField (e : AuthEntry) (f : AuthField) (v : String) : AuthEntry :=
  match f with
  | AuthField.token => { e with token := some v }
  | AuthField.username => { e with username := some v }
  | AuthField.password => { e with password := some v }

/-- Processing of one environment variable inside `loadAuthConfig`:
create the record if absent, promote a non-bearer record to bearer on a
bearer signal, store the value, and give api-key records the default
header name when none is set yet. -/
def applyAuthKey (cfg : AuthConfig) (key value : String) : AuthConfig :=
  match classifyAuthKey key with
  | none => cfg
  | some (stem, ty, field) =>
    let name := strToLower stem
    let cur := (authGet cfg name).getD { type := ty }
    let cur :=
      if ty = AuthType.bearer ∧ cur.type ≠ AuthType.bearer then
        { cur with type := AuthType.bearer }
      else
        cur
    let cur := setAuthField cur field value
    let cur :=
      if ty = AuthType.apiKey ∧ cur.headerName = none then
        { cur with headerName := some "X-API-Key" }
      else
        cur
    authSet cfg name cur

/-- The `if (!value) continue` guard: variables whose value is absent
(`undefined`) or the empty string are skipped entirely. -/
def envAuthStep (cfg : AuthConfig) (entry : String × Option String) : AuthConfig :=
  match entry.2 with
  | none => cfg
  | some v => if v = "" then cfg else applyAuthKey cfg entry.1 v

/-- `loadAuthConfig`: a full recomputation of the Auth Record map by a
single pass over the environment in scan order. -/
def loadAuthConfig (env : List (String × Option String)) : AuthConfig :=
  env.foldl envAuthStep []

/- ===== Tool Compiler (src/utils/openapi-parser.ts) ===== -/

/-- Splits a character list on a separator character, keeping empty
pieces, like JavaScript `String.prototype.split` with a one-character
separator. -/
def splitCharAux (c : Char) : List Char → List Char → List (List Char)
  | [], acc => [acc.reverse]
  | x :: xs, acc =>
    if x = c then acc.reverse :: splitCharAux c xs []
    else splitCharAux c xs (x :: acc)

/-- `s.split(c)` for a single-character separator. -/
def strSplitOnChar (c : Char) (s : String) : List String :=
  (splitCharAux c s.data []).map String.mk

/-- Removes the first `n` characters (`s.slice(n)`). -/
def strDrop (s : String) (n : Nat) : String :=
  String.mk (s.data.drop n)

/-- First pass of JSON-pointer unescaping: every `~1` becomes `/`. -/
def unescapeSlashes : List Char → List Char
  | '~' :: '1' :: rest => '/' :: unescapeSlashes rest
  | x :: rest => x :: unescapeSlashes rest
  | [] => []

/-- Second pass of JSON-pointer unescaping: every `~0` becomes `~`. -/
def unescapeTildes : List Char → List Char
  | '~' :: '0' :: rest => '~' :: unescapeTildes rest
  | x :: rest => x :: unescapeTildes rest
  | [] => []

/-- One pointer part unescaped exactly as the source does:
`part.replace(~1 to /).replace(~0 to ~)`, two full passes. -/
def unescapePointerPart (s : String) : String :=
  String.mk (unescapeTildes (unescapeSlashes s.data))

/-- Parses a digit string left to right; `none` on a non-digit. -/
def parseDigitsAux : List Char → Nat → Option Nat
  | [], acc => some acc
  | c :: rest, acc =>
    if 48 ≤ c.toNat && c.toNat ≤ 57 then
      parseDigitsAux rest (acc * 10 + (c.toNat - 48))
    else
      none

/-- A canonical array index, the only keys the `part in array` test of
the pointer walk finds on a JavaScript array: digit strings equal to the
decimal rendering of their value. -/
def arrayIndex (s : String) : Option Nat :=
  match s.data with
  | [] => none
  | _ =>
    match parseDigitsAux s.data 0 with
    | some i => if Nat.repr i = s then some i else none
    | none => none

/-- One step of the pointer walk: descend into an object field or a
canonical array index; primitives and `null` end the walk. -/
def jsonIndex (cur : Json) (part : String) : Option Json :=
  match cur with
  | Json.obj fields => jsonLookup fields part
  | Json.arr elems =>
    match arrayIndex part with
    | some i => elems.get? i
    | none => none
  | _ => none

/-- `resolveJsonPointer`: a document-local `#/...` pointer walk over an
immutable tree, returning the referenced node or `none`. -/
def resolveJsonPointer (root : Json) (ref : String) : Option Json :=
  if strStartsWith ref "#/" then
    let parts := (strSplitOnChar '/' (strDrop ref 2)).map unescapePointerPart
    parts.foldl (fun cur part => cur.bind (fun c => jsonIndex c part)) (some root)
  else
    none

/-- `resolveParameterRef`: a non-object fragment is dropped; a fragment
without a `$ref` key is returned as is (arrays, which are objects to
`typeof`, carry no `$ref` property); otherwise the document-local
pointer is resolved, with unresolved, empty, external, or non-string
refs dropped. -/
def resolveParameterRef (paramRef : Json) (specRoot : Option Json) : Option Json :=
  match paramRef with
  | Json.obj fields =>
    match jsonLookup fields "$ref" with
    | none => some (Json.obj fields)
    | some refVal =>
      let ref :=
        match refVal with
        | Json.str s => s
        | _ => ""
      if ref = "" then none
      else
        match specRoot with
        | none => none
        | some root => resolveJsonPointer root ref
  | Json.arr elems => some (Json.arr elems)
  | _ => none

/-- The Swagger-2 style branch of `getParameterSchema`: when the
fragment carries a truthy inline `type`, synthesize a schema object from
its `type`/`format`/`items`/`enum`/`default` fields (`default` copied
whenever present, the others only when truthy). -/
def paramSchemaFromType (param : Json) : Option Json :=
  match param.getField "type" with
  | some tv =>
    if jsTruthy tv then
      let fields := [("type", tv)]
      let fields := fields ++
        (match param.getField "format" with
         | some fv => if jsTruthy fv then [("format", fv)] else []
         | none => [])
      let fields := fields ++
        (match param.getField "items" with
         | some iv => if jsTruthy iv then [("items", iv)] else []
         | none => [])
      let fields := fields ++
        (match param.getField "enum" with
         | some ev => if jsTruthy ev then [("enum", ev)] else []
         | none => [])
      let fields := fields ++
        (match param.getField "default" with
         | some dv => [("default", dv)]
         | none => [])
      some (Json.obj fields)
    else
      none
  | none => none

/-- `getParameterSchema`: an object-typed `schema` field wins; else the
`content` map is consulted (`application/json` preferred when truthy,
else the first entry with a truthy schema); else the inline-`type`
branch. -/
def getParameterSchema (param : Json) : Option Json :=
  match param.getField "schema" with
  | some (Json.obj sf) => some (Json.obj sf)
  | some (Json.arr se) => some (Json.arr se)
  | _ =>
    let contentEntries : Option (Option Json × List Json) :=
      match param.getField "content" with
      | some (Json.obj cf) =>
        some (jsonLookup cf "application/json", cf.map (fun kv => kv.2))
      | some (Json.arr es) => some (none, es)
      | _ => none
    match contentEntries with
    | some (appJson, values) =>
      let withSchema := fun (e : Json) =>
        jsTruthy e && jsTruthyOpt (e.getField "schema")
      let preferred :=
        match appJson with
        | some v => if jsTruthy v then some v else values.find? withSchema
        | none => values.find? withSchema
      match preferred with
      | some p =>
        match p.getField "schema" with
        | some s => if jsTruthy s then some s else paramSchemaFromType param
        | none => paramSchemaFromType param
      | none => paramSchemaFromType param
    | none => paramSchemaFromType param

/-- A Parameter Descriptor. The source field `in` is called `loc` here
(`in` is a Lean keyword); `description` is copied verbatim from the
fragment. -/
structure ToolParameter where
  name : String
  loc : String
  required : Bool
  schema : Json
  description : Option Json := none

/-- Extraction of one parameter: resolve the possible `$ref`, compute
its schema, and keep it only when `in`, `name` and the schema are all
truthy (the declared parameter type makes `in` and `name` strings);
`required` is the declared flag's truthiness, forced when `in` is
`path`. -/
def extractOne (specRoot : Option Json) (paramRef : Json) : Option ToolParameter :=
  match resolveParameterRef paramRef specRoot with
  | none => none
  | some param =>
    match getParameterSchema param with
    | none => none
    | some schema =>
      match param.getField "in", param.getField "name" with
      | some (Json.str locS), some (Json.str nameS) =>
        if locS != "" && nameS != "" then
          some { name := nameS, loc := locS,
                 required := jsTruthyOpt (param.getField "required") || locS == "path",
                 schema := schema,
                 description := param.getField "description" }
        else
          none
      | _, _ => none

/-- `extractParameters`: each fragment resolved and filtered in order. -/
def extractParameters (paramRefs : List Json) (specRoot : Option Json) :
    List ToolParameter :=
  paramRefs.filterMap (extractOne specRoot)

/-- Strips every character outside `[a-zA-Z0-9]`. -/
def stripNonAlphanumeric (s : String) : String :=
  String.mk (s.data.filter (fun c => c.isAlpha || c.isDigit))

/-- `parts.join(sep)`. -/
def joinSep (sep : String) : List String → String
  | [] => ""
  | [s] => s
  | s :: rest => s ++ sep ++ joinSep sep rest

/-- The static path segments used for a fallback tool name: non-empty
segments not starting with a brace, each stripped of non-alphanumeric
characters. -/
def pathToolSegments (pathTemplate : String) : List String :=
  ((strSplitOnChar '/' pathTemplate).filter
      (fun part => part != "" && !(strStartsWith part "\x7b"))).map
    stripNonAlphanumeric

/-- The fallback tool name (`pathParts.join("_") || "root"`). -/
def pathBasedToolName (apiName pathTemplate method : String) : String :=
  let joined := joinSep "_" (pathToolSegments pathTemplate)
  apiName ++ "_" ++ method ++ "_" ++ (if joined = "" then "root" else joined)

/-- `generateToolName`: `{namespace}_{operationId}` when the operation
has a truthy `operationId` (the string-typed field is truthy iff
non-empty), else the path-and-verb fallback name. -/
def generateToolName (apiName : String) (operationId : Option String)
    (pathTemplate method : String) : String :=
  match operationId with
  | some oid =>
    if oid != "" then apiName ++ "_" ++ oid
    else pathBasedToolName apiName pathTemplate method
  | none => pathBasedToolName apiName pathTemplate method

/- ===== Tool Definitions and the Request Builder/Executor
(src/types.ts, src/utils/http-client.ts) ===== -/

/-- A Tool Definition. `requestBody`/`responses` are copied verbatim
from the operation; `operationId` mirrors the optional source field. -/
structure GeneratedTool where
  name : String
  description : String
  operationId : Option String := none
  method : String
  path : String
  parameters : List ToolParameter
  requestBody : Option Json := none
  responses : Json := Json.null
  security : List Json := []
  baseUrl : String

/-- The `if (tool.requestBody)` truthiness test: the tool has a formal
body schema iff the field is present and truthy. -/
def hasRequestBody (tool : GeneratedTool) : Bool :=
  match tool.requestBody with
  | none => false
  | some j => jsTruthy j

/-- `HttpClient.buildRequestBody`. Without a formal body schema: the
single body-location parameter's own argument, else the `body` argument,
else none (and none at all when no body-location parameter exists). With
a formal body schema: the `body` argument, else the `requestBody`
argument, else all arguments matching no declared parameter name
collected into an object when non-empty, else none. -/
def buildRequestBody (tool : GeneratedTool) (args : List (String × Json)) :
    Option Json :=
  if !hasRequestBody tool then
    match tool.parameters.find? (fun p => p.loc == "body") with
    | none => none
    | some bodyParam =>
      match jsonLookup args bodyParam.name with
      | some v => some v
      | none =>
        match jsonLookup args "body" with
        | some v => some v
        | none => none
  else
    match jsonLookup args "body" with
    | some v => some v
    | none =>
      match jsonLookup args "requestBody" with
      | some v => some v
      | none =>
        let bodyArgs :=
          args.filter (fun kv => !(tool.parameters.any (fun p => p.name == kv.1)))
        if bodyArgs.length > 0 then some (Json.obj bodyArgs) else none

/-- The request configuration handed to the transport. -/
structure RequestConfig where
  method : String
  url : String
  headers : List (String × String)
  params : List (String × Json) := []
  data : Option Json := none
  timeout : Nat := 30000

/-- The status slot of an API Call Result: a numeric HTTP status, or
one of the two string sentinels the executor writes (`"Unknown"` when a
transport error carries no response, `"Error"` for a non-transport
exception). -/
inductive StatusValue where
  | code (n : Nat)
  | unknownSentinel
  | errorSentinel
deriving DecidableEq

/-- An API Call Result: always produced, even on transport failure. -/
structure ApiCallResult where
  requestUrl : String
  requestBody : Option Json
  status : StatusValue
  body : Option Json

/-- The behaviour of one transport call, the external collaborator
behind `await axios(requestConfig)`: a fulfilled response, a transport
error (`axios.isAxiosError`) with or without a received response, or a
non-transport exception thrown inside the `try`. -/
inductive TransportOutcome where
  | success (status : Nat) (body : Option Json)
  | axiosError (response : Option (Nat × Option Json))
  | thrown (message : String)

/-- `HttpClient.executeRequest`: build, issue, normalize. Building is
passed in as an `Except` (an exception while building is its `error`
case, caught by the same `catch`), and the URL re-serializer
`buildRequestUrl` — which relies on the host's WHATWG URL parser — is a
parameter. Every branch returns an API Call Result; nothing escapes. -/
def executeRequest (renderUrl : RequestConfig → String)
    (build : Except String RequestConfig) (transport : TransportOutcome) :
    ApiCallResult :=
  match build with
  | Except.error msg =>
    { requestUrl := "", requestBody := none,
      status := StatusValue.errorSentinel,
      body := some (Json.obj [("error", Json.str msg)]) }
  | Except.ok cfg =>
    match transport with
    | TransportOutcome.success st body =>
      { requestUrl := renderUrl cfg, requestBody := cfg.data,
        status := StatusValue.code st, body := body }
    | TransportOutcome.axiosError response =>
      { requestUrl := renderUrl cfg, requestBody := cfg.data,
        status :=
          match response with
          | some (st, _) => StatusValue.code st
          | none => StatusValue.unknownSentinel,
        body :=
          match response with
          | some (_, b) => b
          | none => none }
    | TransportOutcome.thrown msg =>
      { requestUrl := renderUrl cfg, requestBody := cfg.data,
        status := StatusValue.errorSentinel,
        body := some (Json.obj [("error", Json.str msg)]) }

/-- A transport call that did not fulfil with a response. -/
def transportFailed : TransportOutcome → Bool
  | TransportOutcome.success _ _ => false
  | TransportOutcome.axiosError _ => true
  | TransportOutcome.thrown _ => true

/-- The whole invocation failed: the build threw, or the transport
call did not fulfil. -/
def callFailed (build : Except String RequestConfig)
    (transport : TransportOutcome) : Bool :=
  match build with
  | Except.error _ => true
  | Except.ok _ => transportFailed transport

/-- A success (2xx) status code. The string sentinels are not success
codes. -/
def isSuccessStatusCode : StatusValue → Bool
  | StatusValue.code n => 200 ≤ n && n < 300
  | StatusValue.unknownSentinel => false
  | StatusValue.errorSentinel => false

/- ===== Batch Dispatcher (src/tools.ts: ToolRegistrar) ===== -/

/-- ASCII whitespace for the `trim()` calls of this code base. -/
def isJsSpace (c : Char) : Bool :=
  c = ' ' || c = '\t' || c = '\n' || c = '\r' || c = '\x0b' || c = '\x0c'

/-- `s.trim()`. -/
def strTrim (s : String) : String :=
  String.mk (((s.data.dropWhile isJsSpace).reverse.dropWhile isJsSpace).reverse)

/-- `normalizeToolName`: trim, then strip the first matching known
prefix (`mcp_specrun_`, then `specrun_`). -/
def normalizeToolName (value : String) : String :=
  let trimmed := strTrim value
  if strStartsWith trimmed "mcp_specrun_" then strDrop trimmed 12
  else if strStartsWith trimmed "specrun_" then strDrop trimmed 8
  else trimmed

/-- A Confirmation Token record: `{toolName, count, expiresAt}`. -/
structure TokenRecord where
  toolName : String
  count : Nat
  expiresAt : Int
deriving DecidableEq

/-- The in-memory confirmation-token table (`largeBatchConfirmations`). -/
abbrev TokenTable := List (String × TokenRecord)

/-- `Map.get`. -/
def tableGet : TokenTable → String → Option TokenRecord
  | [], _ => none
  | (k, v) :: rest, key => if k = key then some v else tableGet rest key

/-- `Map.set`: replace the existing binding, else append. -/
def tableSet : TokenTable → String → TokenRecord → TokenTable
  | [], key, r => [(key, r)]
  | (k, v) :: rest, key, r =>
    if k = key then (k, r) :: rest else (k, v) :: tableSet rest key r

/-- `Map.delete`. -/
def tableDelete (table : TokenTable) (key : String) : TokenTable :=
  table.filter (fun kv => kv.1 != key)

/-- `largeBatchThreshold`: 200 items. -/
def largeBatchThreshold : Nat := 200

/-- `largeBatchTokenTtlMs`: five minutes. -/
def largeBatchTokenTtlMs : Int := 5 * 60 * 1000

/-- `issueLargeBatchToken`: store a fresh token (the `randomUUID`
result is a parameter) bound to the tool name and item count, expiring
`largeBatchTokenTtlMs` after `now`. -/
def issueLargeBatchToken (table : TokenTable) (freshToken toolName : String)
    (count : Nat) (now : Int) : TokenTable :=
  tableSet table freshToken
    { toolName := toolName, count := count, expiresAt := now + largeBatchTokenTtlMs }

/-- `isLargeBatchConfirmed`, with the table threaded explicitly: the
flag must be set and the token non-empty; the record must exist, be
unexpired at lookup time (an expired record is removed), and its bound
tool name and count must equal the request's; on acceptance the record
is deleted before the result is returned. -/
def isLargeBatchConfirmed (table : TokenTable) (confirmLargeBatch : Bool)
    (confirmLargeBatchToken toolName : String) (count : Nat) (now : Int) :
    Bool × TokenTable :=
  if !confirmLargeBatch || confirmLargeBatchToken == "" then (false, table)
  else
    match tableGet table confirmLargeBatchToken with
    | none => (false, table)
    | some record =>
      if record.expiresAt ≤ now then
        (false, tableDelete table confirmLargeBatchToken)
      else if record.toolName != toolName || record.count != count then
        (false, table)
      else
        (true, tableDelete table confirmLargeBatchToken)

/-- One per-index outcome of a batch: a normalized result, or a
per-index error (validation failure or converted exception). -/
inductive BatchItemOutcome where
  | ok (index : Nat) (result : ApiCallResult)
  | err (index : Nat) (message : String)

/-- The item loop of the batch dispatcher: validate each item against
the tool's schema (`safeParse`, the `validate` parameter), then execute
(`exec`, whose `error` case is a thrown exception, converted to a
per-index error); `failFast` stops after any error. -/
def runBatchItems (validate : Json → Except String Json)
    (exec : Json → Except String ApiCallResult) (failFast : Bool) :
    Nat → List Json → List BatchItemOutcome
  | _, [] => []
  | index, item :: rest =>
    match validate item with
    | Except.error msg =>
      BatchItemOutcome.err index msg ::
        (if failFast then []
         else runBatchItems validate exec failFast (index + 1) rest)
    | Except.ok parsed =>
      match exec parsed with
      | Except.ok r =>
        BatchItemOutcome.ok index r ::
          runBatchItems validate exec failFast (index + 1) rest
      | Except.error msg =>
        BatchItemOutcome.err index msg ::
          (if failFast then []
           else runBatchItems validate exec failFast (index + 1) rest)

/-- The three terminal shapes of one `specrun_batch` call. -/
inductive BatchOutcome where
  | unknownTool (rawToolName normalizedToolName : String)
  | confirmationRequired (toolName : String) (count : Nat) (token : String)
  | executed (toolName : String) (count : Nat) (results : List BatchItemOutcome)

/-- The `specrun_batch` execute handler, state threaded explicitly.
`registryNames` are the registered tool names; `validate`/`exec` stand
for the looked-up entry's schema and the executor; `freshToken` is the
`randomUUID` value used if a token must be minted. Unknown tool is an
immediate error; a batch over the threshold consults the gate (which
may consume or sweep a token) and short-circuits into a
confirmation-required response, minting a fresh token, unless the gate
accepts; otherwise every item is processed in order. -/
def batchDispatch (registryNames : List String)
    (validate : Json → Except String Json)
    (exec : Json → Except String ApiCallResult)
    (rawToolName : String) (items : List Json) (failFast confirmLargeBatch : Bool)
    (confirmLargeBatchToken : String) (table : TokenTable) (now : Int)
    (freshToken : String) : BatchOutcome × TokenTable :=
  let toolName := normalizeToolName rawToolName
  if !(registryNames.contains toolName) then
    (BatchOutcome.unknownTool rawToolName toolName, table)
  else if items.length > largeBatchThreshold then
    let gate := isLargeBatchConfirmed table confirmLargeBatch
      confirmLargeBatchToken toolName items.length now
    if gate.1 then
      (BatchOutcome.executed toolName items.length
        (runBatchItems validate exec failFast 0 items), gate.2)
    else
      (BatchOutcome.confirmationRequired toolName items.length freshToken,
       issueLargeBatchToken gate.2 freshToken toolName items.length now)
  else
    (BatchOutcome.executed toolName items.length
      (runBatchItems validate exec failFast 0 items), table)

/- ===== Schema Synthesizer (src/tools.ts: openAPISchemaToZod) ===== -/

/-- A looked-up field is structurally smaller than the field list. -/
theorem sizeOf_jsonLookup {fields : List (String × Json)} {key : String}
    {v : Json} (h : jsonLookup fields key = some v) : sizeOf v < sizeOf fields := by
  induction fields with
  | nil => simp [jsonLookup] at h
  | cons kv rest ih =>
    obtain ⟨k, w⟩ := kv
    simp only [jsonLookup] at h
    by_cases hk : k = key
    · rw [if_pos hk] at h
      cases h
      simp only [List.cons.sizeOf_spec, Prod.mk.sizeOf_spec]
      omega
    · rw [if_neg hk] at h
      have := ih h
      simp only [List.cons.sizeOf_spec]
      omega

/-- A member's value is structurally smaller than the field list. -/
theorem sizeOf_mem_snd {fields : List (String × Json)} {kv : String × Json}
    (h : kv ∈ fields) : sizeOf kv.2 < sizeOf fields := by
  induction fields with
  | nil => cases h
  | cons hd rest ih =>
    rcases List.mem_cons.mp h with h1 | h2
    · subst h1
      obtain ⟨k, w⟩ := kv
      simp only [List.cons.sizeOf_spec, Prod.mk.sizeOf_spec]
      omega
    · have := ih h2
      simp only [List.cons.sizeOf_spec]
      omega

/-- The `schema.properties || {}` entries: the declared property list
when `properties` is an object, else nothing. -/
def propsOf (fields : List (String × Json)) : List (String × Json) :=
  match jsonLookup fields "properties" with
  | some (Json.obj ps) => ps
  | _ => []

/-- A property value is structurally smaller than the whole fragment's
field list. -/
theorem sizeOf_propsOf_snd {fields : List (String × Json)} {kv : String × Json}
    (h : kv ∈ propsOf fields) : sizeOf kv.2 < sizeOf fields := by
  unfold propsOf at h
  rcases hp : jsonLookup fields "properties" with _ | j
  · rw [hp] at h
    simp at h
  · rw [hp] at h
    cases j <;> simp at h
    case obj ps =>
      have h1 := sizeOf_mem_snd h
      have h2 := sizeOf_jsonLookup hp
      simp only [Json.obj.sizeOf_spec] at h2
      omega

/-- The `new Set(schema.required || [])` membership test, restricted to
string entries (the only values a string property key can equal). -/
def requiredNamesOf (fields : List (String × Json)) : List String :=
  match jsonLookup fields "required" with
  | some (Json.arr es) =>
    es.filterMap (fun e =>
      match e with
      | Json.str s => some s
      | _ => none)
  | _ => []

/-- The additional-properties policy of a synthesized object validator:
zod's default key-stripping object, `strict()`, `passthrough()`
(`loose`), or a typed `catchall`. -/
inductive ZodPolicy (α : Type) where
  | strip
  | strict
  | loose
  | catchall (extra : α)

/-- The runtime validators the synthesizer emits (the zod combinators
this code uses; `describe` only attaches documentation and is omitted). -/
inductive ZodType where
  | any
  | string
  | number
  | int
  | boolean
  | array (elem : ZodType)
  | object (shape : List (String × ZodType)) (policy : ZodPolicy ZodType)
  | optional (t : ZodType)

/-- `openAPISchemaToZod`: a non-object fragment (`null` included, and
arrays, whose `type` property is absent) and any fragment whose `type`
is not one of the six recognized strings map to the accept-anything
validator. `array` recurses on `items || an empty object`; `object`
builds one field per declared property (optional unless in the
`required` set) and the additional-properties policy (`false` seals,
`true` or absent opens, an object — `typeof null` included — gives a
typed catchall, any other primitive leaves the zod default). -/
def openAPISchemaToZod : Json → ZodType
  | Json.obj fields =>
    match htype : jsonLookup fields "type" with
    | some (Json.str "string") => ZodType.string
    | some (Json.str "number") => ZodType.number
    | some (Json.str "integer") => ZodType.int
    | some (Json.str "boolean") => ZodType.boolean
    | some (Json.str "array") =>
      (match hitems : jsonLookup fields "items" with
       | some it =>
         if jsTruthy it then ZodType.array (openAPISchemaToZod it)
         else ZodType.array (openAPISchemaToZod (Json.obj []))
       | none => ZodType.array (openAPISchemaToZod (Json.obj [])))
    | some (Json.str "object") =>
      let shape := (propsOf fields).attach.map (fun pv =>
        let t := openAPISchemaToZod pv.1.2
        (pv.1.1,
         if (requiredNamesOf fields).contains pv.1.1 then t
         else ZodType.optional t))
      (match hadd : jsonLookup fields "additionalProperties" with
       | some (Json.bool false) => ZodType.object shape ZodPolicy.strict
       | some (Json.bool true) => ZodType.object shape ZodPolicy.loose
       | none => ZodType.object shape ZodPolicy.loose
       | some Json.null =>
         ZodType.object shape (ZodPolicy.catchall (openAPISchemaToZod Json.null))
       | some (Json.obj af) =>
         ZodType.object shape (ZodPolicy.catchall (openAPISchemaToZod (Json.obj af)))
       | some (Json.arr ae) =>
         ZodType.object shape (ZodPolicy.catchall (openAPISchemaToZod (Json.arr ae)))
       | some (Json.str _) => ZodType.object shape ZodPolicy.strip
       | some (Json.num _) => ZodType.object shape ZodPolicy.strip)
    | some _ => ZodType.any
    | none => ZodType.any
  | _ => ZodType.any
termination_by j => sizeOf j
decreasing_by
  · have := sizeOf_jsonLookup hitems
    simp only [Json.obj.sizeOf_spec]
    omega
  · have := sizeOf_jsonLookup htype
    simp only [Json.obj.sizeOf_spec, Json.str.sizeOf_spec,
      List.nil.sizeOf_spec] at *
    omega
  · have := sizeOf_jsonLookup htype
    simp only [Json.obj.sizeOf_spec, Json.str.sizeOf_spec,
      List.nil.sizeOf_spec] at *
    omega
  · have := sizeOf_propsOf_snd pv.2
    simp only [Json.obj.sizeOf_spec]
    omega
  · have := sizeOf_jsonLookup htype
    simp only [Json.obj.sizeOf_spec, Json.str.sizeOf_spec,
      Json.null.sizeOf_spec] at *
    omega
  · have := sizeOf_jsonLookup hadd
    simp only [Json.obj.sizeOf_spec] at *
    omega
  · have := sizeOf_jsonLookup hadd
    simp only [Json.obj.sizeOf_spec] at *
    omega

/-- Record update for the `schemaFields[...] = ...` assignments (a later
same-named parameter overwrites an earlier one). -/
def recordSet : List (String × ZodType) → String → ZodType →
    List (String × ZodType)
  | [], key, t => [(key, t)]
  | (k, v) :: rest, key, t =>
    if k = key then (k, t) :: rest else (k, v) :: recordSet rest key t

/-- `buildZodSchema`: one field per parameter (optional iff not
required), plus an accept-anything optional `body` field when the tool
declares a body; declaring a body also switches the object policy to
passthrough. -/
def buildZodSchema (tool : GeneratedTool) : ZodType :=
  let fieldsAcc := tool.parameters.foldl (fun acc p =>
    let f := openAPISchemaToZod p.schema
    let f := if p.required then f else ZodType.optional f
    recordSet acc p.name f) []
  let fieldsAcc :=
    if hasRequestBody tool then
      recordSet fieldsAcc "body" (ZodType.optional ZodType.any)
    else
      fieldsAcc
  ZodType.object fieldsAcc
    (if hasRequestBody tool then ZodPolicy.loose else ZodPolicy.strip)

/- ===== Env Hot-Reload (src/server.ts: updateToolBaseUrlsFromEnv) ===== -/

/-- `process.env` lookup. -/
def envLookup : List (String × String) → String → Option String
  | [], _ => none
  | (k, v) :: rest, key => if k = key then some v else envLookup rest key

/-- `resolveServerUrl`: the `{NAME}_SERVER_URL` variable's trimmed
value when set and non-blank, else `none`. -/
def resolveServerUrl (apiName : String) (env : List (String × String)) :
    Option String :=
  let envKey := strToUpper apiName ++ "_SERVER_URL"
  match envLookup env envKey with
  | some v =>
    let t := strTrim v
    if t = "" then none else some t
  | none => none

/-- A parsed, already-compiled description document with its tools. -/
structure ParsedSpec where
  apiName : String
  filePath : String
  specJson : Json
  tools : List GeneratedTool

/-- A Tool Registry entry, reduced to what `updateToolBaseUrlsFromEnv`
reads and writes: the owning spec's API name and the compiled tool. -/
structure RegEntry where
  specApiName : String
  tool : GeneratedTool

/-- `updateToolBaseUrlsFromEnv`, as a pure state transformer over the
parsed-spec list and the registry. For each spec whose
`{NAME}_SERVER_URL` is set, the per-spec base URL is computed by the
`resolve` parameter (abstracting `resolveToolBaseUrl`, which depends on
the host URL parser) and written into the base-URL field of every tool
of that spec and of every registry entry with the same API name. -/
def updateToolBaseUrls (resolve : ParsedSpec → String → String)
    (env : List (String × String)) :
    List ParsedSpec → List (String × RegEntry) →
    List ParsedSpec × List (String × RegEntry)
  | [], registry => ([], registry)
  | spec :: rest, registry =>
    match resolveServerUrl spec.apiName env with
    | none =>
      let r := updateToolBaseUrls resolve env rest registry
      (spec :: r.1, r.2)
    | some newBaseUrl =>
      let resolved := resolve spec newBaseUrl
      let spec2 :=
        { spec with tools := spec.tools.map (fun t => { t with baseUrl := resolved }) }
      let registry2 := registry.map (fun e =>
        if e.2.specApiName = spec.apiName then
          (e.1, { specApiName := e.2.specApiName,
                  tool := { e.2.tool with baseUrl := resolved } })
        else e)
      let r := updateToolBaseUrls resolve env rest registry2
      (spec2 :: r.1, r.2)

/-- The end-to-end example tool of the spec: `POST /cars`, operationId
`addCar`, namespace `cars`, with no declared body schema and no
body-location parameter. -/
def carsAddCarTool : GeneratedTool :=
  { name := "cars_addCar", description := "Add a car",
    operationId := some "addCar", method := "POST", path := "/cars",
    parameters := [], baseUrl := "https://api-server.placeholder" }

/-- A tool that does declare a formal body schema (and no parameters),
for exercising the with-schema body precedence. -/
def widgetBodyTool : GeneratedTool :=
  { name := "widgets_create", description := "Create a widget",
    method := "POST", path := "/widgets", parameters := [],
    requestBody := some (Json.obj [("required", Json.bool true)]),
    baseUrl := "https://example.test" }

/- ===== Shared helper lemmas ===== -/

theorem tableGet_tableSet_self (table : TokenTable) (key : String)
    (r : TokenRecord) : tableGet (tableSet table key r) key = some r := by
  induction table with
  | nil => simp [tableSet, tableGet]
  | cons kv rest ih =>
    obtain ⟨k, v⟩ := kv
    by_cases hk : k = key
    · simp [tableSet, tableGet, hk]
    · simp [tableSet, tableGet, hk, ih]

theorem tableGet_tableDelete_self (table : TokenTable) (key : String) :
    tableGet (tableDelete table key) key = none := by
  induction table with
  | nil => simp [tableDelete, tableGet]
  | cons kv rest ih =>
    obtain ⟨k, v⟩ := kv
    by_cases hk : k = key
    · simpa [tableDelete, hk] using ih
    · simpa [tableDelete, tableGet, hk] using ih

theorem runBatchItems_length (validate : Json → Except String Json)
    (exec : Json → Except String ApiCallResult) :
    ∀ (index : Nat) (items : List Json),
      (runBatchItems validate exec false index items).length = items.length := by
  intro index items
  induction items generalizing index with
  | nil => simp [runBatchItems]
  | cons item rest ih =>
    simp only [runBatchItems]
    cases hval : validate item with
    | error msg => simp [hval, ih]
    | ok parsed =>
      cases hexec : exec parsed with
      | ok r => simp [hval, hexec, ih]
      | error msg => simp [hval, hexec, ih]

/-- A concrete successful API Call Result, for exercising the batch
dispatcher at concrete inputs. -/
def demoApiResult : ApiCallResult :=
  { requestUrl := "https://example.test/cars", requestBody := none,
    status := StatusValue.code 200, body := none }

/-- A concrete path-parameter fragment declaring `required:false`. -/
def pathFragDemo : Json :=
  Json.obj [("name", Json.str "id"), ("in", Json.str "path"),
            ("required", Json.bool false),
            ("schema", Json.obj [("type", Json.str "string")])]

/-- The descriptor the compiler extracts from `pathFragDemo`. -/
def pathParamDemo : ToolParameter :=
  { name := "id", loc := "path", required := true,
    schema := Json.obj [("type", Json.str "string")] }

/-- Two Tool Definitions agreeing on every field other than the base
URL: the frame a hot-reload refresh must preserve. -/
def ToolFrame (t t2 : GeneratedTool) : Prop :=
  t2.name = t.name ∧ t2.description = t.description ∧
  t2.operationId = t.operationId ∧ t2.method = t.method ∧
  t2.path = t.path ∧ t2.parameters = t.parameters ∧
  t2.requestBody = t.requestBody ∧ t2.responses = t.responses ∧
  t2.security = t.security

/-- What the refresh does to one parsed spec: nothing when its
`{NAME}_SERVER_URL` is not set, else the resolved URL is written into
the base-URL field of every one of its tools. -/
def updateOneSpec (resolve : ParsedSpec → String → String)
    (env : List (String × String)) (s : ParsedSpec) : ParsedSpec :=
  match resolveServerUrl s.apiName env with
  | none => s
  | some url =>
    { s with tools := s.tools.map (fun t => { t with baseUrl := resolve s url }) }

/-- What one pass of the refresh loop does to one registry entry for
one spec: nothing when the spec's `{NAME}_SERVER_URL` is not set or the
entry belongs to another API, else the spec's resolved URL is written
into the stored tool's base-URL field. -/
def updateRegEntryStep (resolve : ParsedSpec → String → String)
    (env : List (String × String)) (e : String × RegEntry) (s : ParsedSpec) :
    String × RegEntry :=
  match resolveServerUrl s.apiName env with
  | none => e
  | some url =>
    if e.2.specApiName = s.apiName then
      (e.1, { specApiName := e.2.specApiName,
              tool := { e.2.tool with baseUrl := resolve s url } })
    else e

/-- The per-spec contract of a refresh: identity on every non-tool
field, `ToolFrame` on each tool in place, full identity when the spec's
`{NAME}_SERVER_URL` is not set, and — the effect — when it is set, every
tool's base URL is rewritten to the resolved URL. -/
def SpecFrame (resolve : ParsedSpec → String → String)
    (env : List (String × String)) (s s2 : ParsedSpec) : Prop :=
  s2.apiName = s.apiName ∧ s2.filePath = s.filePath ∧
  s2.specJson = s.specJson ∧
  List.Forall₂ ToolFrame s.tools s2.tools ∧
  (resolveServerUrl s.apiName env = none → s2 = s) ∧
  (∀ url, resolveServerUrl s.apiName env = some url →
    s2.tools = s.tools.map (fun t => { t with baseUrl := resolve s url }))

/-- The per-registry-entry contract of a refresh: key and owning API
name unchanged, `ToolFrame` on the stored tool, full identity when no
loaded spec with this entry's API name has its `{NAME}_SERVER_URL` set,
and — the effect — the entry is exactly the result of pushing every
matching spec's resolved URL onto it in order. -/
def RegFrame (resolve : ParsedSpec → String → String)
    (env : List (String × String)) (specs : List ParsedSpec)
    (e e2 : String × RegEntry) : Prop :=
  e2.1 = e.1 ∧ e2.2.specApiName = e.2.specApiName ∧
  ToolFrame e.2.tool e2.2.tool ∧
  ((∀ s ∈ specs, s.apiName = e.2.specApiName →
      resolveServerUrl s.apiName env = none) → e2 = e) ∧
  e2 = specs.foldl (updateRegEntryStep resolve env) e

/-- A concrete one-tool parsed spec for the hot-reload witness. -/
def carsParsedSpec : ParsedSpec :=
  { apiName := "cars", filePath := "cars.json",
    specJson := Json.obj [], tools := [carsAddCarTool] }

/-- A fragment the synthesizer can interpret: an object whose `type`
field is one of the six recognized type strings. Everything else lands
in the accept-anything default. -/
def interpretableFragment (j : Json) : Bool :=
  match j with
  | Json.obj fields =>
    match jsonLookup fields "type" with
    | some (Json.str t) =>
      t == "string" || t == "number" || t == "integer" || t == "boolean" ||
        t == "array" || t == "object"
    | _ => false
  | _ => false

/- ===== Claim theorems ===== -/

/-- C10: an environment variable whose value is the empty string or is
absent (`undefined`) contributes nothing to the Auth Record map — it
neither creates nor modifies a record — and in particular the empty
`{NAME}_SERVER_URL` / `{NAME}_BEARER_TOKEN` placeholders the loader
appends yield no Auth Record on their own. -/
theorem loadAuthConfig_skips_empty_values :
    (∀ (front back : List (String × Option String)) (key : String),
      loadAuthConfig (front ++ (key, some "") :: back) =
        loadAuthConfig (front ++ back)) ∧
    (∀ (front back : List (String × Option String)) (key : String),
      loadAuthConfig (front ++ (key, none) :: back) =
        loadAuthConfig (front ++ back)) ∧
    loadAuthConfig
        [("CARS_SERVER_URL", some ""), ("CARS_BEARER_TOKEN", some "")] = [] := by
  refine ⟨?_, ?_, rfl⟩ <;>
    · intro front back key
      simp [loadAuthConfig, List.foldl_append, envAuthStep]

/-- Witness for C10: dropping a concrete empty placeholder changes
nothing. -/
theorem loadAuthConfig_skips_empty_values_witness :
    loadAuthConfig [("CARS_BEARER_TOKEN", some "")] = loadAuthConfig [] := by
  simpa using loadAuthConfig_skips_empty_values.1 [] [] "CARS_BEARER_TOKEN"

/-- C4 counterexample: with both variables present but `CARS_TOKEN`
scanned first, the final token is `"abc"` (the value of the variable
scanned last), not `"xyz"` — the claim's order-independence fails. -/
theorem loadAuthConfig_order_counterexample :
    (authGet (loadAuthConfig
        [("CARS_TOKEN", some "xyz"), ("CARS_API_KEY", some "abc")]) "cars").map
        (fun e => e.token) = some (some "abc") ∧
    some (some "abc") ≠ some (some "xyz") := ⟨rfl, by decide⟩

/-- C4 (amended): `CARS_API_KEY=abc` alone yields the apiKey record
with the default header name; `CARS_TOKEN=xyz` alone yields the bearer
record; with both present the type is bearer regardless of scan order
(the promotion rule), but the stored token is the value of the variable
scanned last: `"xyz"` when `CARS_API_KEY` comes first, `"abc"` when
`CARS_TOKEN` comes first. -/
theorem loadAuthConfig_examples :
    authGet (loadAuthConfig [("CARS_API_KEY", some "abc")]) "cars" =
      some { type := AuthType.apiKey, token := some "abc",
             headerName := some "X-API-Key" } ∧
    authGet (loadAuthConfig [("CARS_TOKEN", some "xyz")]) "cars" =
      some { type := AuthType.bearer, token := some "xyz" } ∧
    authGet (loadAuthConfig
        [("CARS_API_KEY", some "abc"), ("CARS_TOKEN", some "xyz")]) "cars" =
      some { type := AuthType.bearer, token := some "xyz",
             headerName := some "X-API-Key" } ∧
    authGet (loadAuthConfig
        [("CARS_TOKEN", some "xyz"), ("CARS_API_KEY", some "abc")]) "cars" =
      some { type := AuthType.bearer, token := some "abc",
             headerName := some "X-API-Key" } :=
  ⟨rfl, rfl, rfl, rfl⟩

/-- C1 counterexample: invoking the end-to-end example tool (no body
schema, no body-location parameter) with the single unmatched argument
`{name:"Civic"}` produces no body at all — not the claimed
`{name:"Civic"}` leftover-argument body. -/
theorem buildRequestBody_leftover_counterexample :
    buildRequestBody carsAddCarTool [("name", Json.str "Civic")] = none ∧
    (none : Option Json) ≠ some (Json.obj [("name", Json.str "Civic")]) :=
  ⟨rfl, by simp⟩

/-- C1 (amended): when the tool has a formal body schema the body is
the explicit `body` argument, else the explicit `requestBody` argument,
else the object collecting every argument whose key matches no declared
parameter name if non-empty, else none. Without a formal body schema
the leftover fallback does not apply: if a body-location parameter
exists the body is that parameter's own argument, else the explicit
`body` argument, else none; with no body-location parameter there is
never a body. -/
theorem buildRequestBody_precedence :
    ∀ (tool : GeneratedTool) (args : List (String × Json)),
      (hasRequestBody tool = true →
        (∀ v, jsonLookup args "body" = some v →
          buildRequestBody tool args = some v) ∧
        (jsonLookup args "body" = none →
          ∀ v, jsonLookup args "requestBody" = some v →
            buildRequestBody tool args = some v) ∧
        (jsonLookup args "body" = none → jsonLookup args "requestBody" = none →
          buildRequestBody tool args =
            (let leftover := args.filter
                (fun kv => !(tool.parameters.any (fun p => p.name == kv.1)))
             if leftover.length > 0 then some (Json.obj leftover) else none))) ∧
      (hasRequestBody tool = false →
        (tool.parameters.find? (fun p => p.loc == "body") = none →
          buildRequestBody tool args = none) ∧
        (∀ bp, tool.parameters.find? (fun p => p.loc == "body") = some bp →
          (∀ v, jsonLookup args bp.name = some v →
            buildRequestBody tool args = some v) ∧
          (jsonLookup args bp.name = none →
            buildRequestBody tool args = jsonLookup args "body"))) := by
  intro tool args
  constructor
  · intro hbody
    refine ⟨?_, ?_, ?_⟩
    · intro v hv
      simp [buildRequestBody, hbody, hv]
    · intro hnone v hv
      simp [buildRequestBody, hbody, hnone, hv]
    · intro h1 h2
      simp [buildRequestBody, hbody, h1, h2]
  · intro hbody
    constructor
    · intro hfind
      simp [buildRequestBody, hbody, hfind]
    · intro bp hfind
      constructor
      · intro v hv
        simp [buildRequestBody, hbody, hfind, hv]
      · intro hnone
        simp only [buildRequestBody, hbody, Bool.not_false, if_true, hfind, hnone]
        cases jsonLookup args "body" <;> simp

/-- Witness for C1 (amended): with a formal body schema and no
matching explicit body, the single unmatched argument is collected into
the body object. -/
theorem buildRequestBody_precedence_witness :
    buildRequestBody widgetBodyTool [("name", Json.str "Widget")] =
      some (Json.obj [("name", Json.str "Widget")]) := by
  have h := ((buildRequestBody_precedence widgetBodyTool
      [("name", Json.str "Widget")]).1 (by rfl)).2.2 rfl rfl
  exact h.trans rfl

/-- C7: the emitted tool name is `{namespace}_{operationId}` when the
operation carries a (truthy, i.e. non-empty) operationId, and otherwise
`{namespace}_{verb}_{segments}` where the segments are the non-brace
path segments with non-alphanumeric characters stripped, joined by
underscores, defaulting to `root` when nothing remains; being a plain
function of its inputs, the naming is deterministic. -/
theorem generateToolName_spec :
    ∀ (apiName : String) (operationId : Option String)
      (pathTemplate method : String),
      (∀ oid, operationId = some oid → oid ≠ "" →
        generateToolName apiName operationId pathTemplate method =
          apiName ++ "_" ++ oid) ∧
      (operationId = none ∨ operationId = some "" →
        generateToolName apiName operationId pathTemplate method =
          apiName ++ "_" ++ method ++ "_" ++
            (if joinSep "_" (pathToolSegments pathTemplate) = "" then "root"
             else joinSep "_" (pathToolSegments pathTemplate))) := by
  intro apiName operationId pathTemplate method
  constructor
  · intro oid hoid hne
    subst hoid
    simp [generateToolName, hne]
  · rintro (h | h) <;> subst h <;> simp [generateToolName, pathBasedToolName]

/-- Witness for C7: the end-to-end naming example. -/
theorem generateToolName_spec_witness :
    generateToolName "cars" (some "addCar") "/cars" "post" = "cars_addCar" := by
  have h := (generateToolName_spec "cars" (some "addCar") "/cars" "post").1
    "addCar" rfl (by decide)
  exact h.trans rfl

/-- C5: the executor is a total function into API Call Results — every
transport behaviour (success, error status, no response, or an
exception thrown while building) lands in a returning branch, so no
exception escapes; under the transport's contract that an error-status
rejection never carries a 2xx status, the result of any failed call
never has a success status code, and it carries the remote's body
whenever one was returned. -/
theorem executeRequest_failure_contract :
    ∀ (renderUrl : RequestConfig → String) (build : Except String RequestConfig)
      (transport : TransportOutcome),
      (∀ st b, transport = TransportOutcome.axiosError (some (st, b)) →
        ¬(200 ≤ st ∧ st < 300)) →
      (callFailed build transport = true →
        isSuccessStatusCode (executeRequest renderUrl build transport).status
          = false) ∧
      (∀ cfg st b, build = Except.ok cfg →
        transport = TransportOutcome.axiosError (some (st, some b)) →
        (executeRequest renderUrl build transport).body = some b) := by
  intro renderUrl build transport htransport
  constructor
  · intro hfail
    cases build with
    | error msg => simp [executeRequest, isSuccessStatusCode]
    | ok cfg =>
      cases transport with
      | success st body => simp [callFailed, transportFailed] at hfail
      | thrown msg => simp [executeRequest, isSuccessStatusCode]
      | axiosError response =>
        cases response with
        | none => simp [executeRequest, isSuccessStatusCode]
        | some p =>
          obtain ⟨st, b⟩ := p
          have hns := htransport st b rfl
          simp only [executeRequest, isSuccessStatusCode]
          rw [Bool.and_eq_false_iff]
          by_cases h1 : 200 ≤ st
          · right
            simp only [decide_eq_false_iff_not]
            omega
          · left
            simp only [decide_eq_false_iff_not]
            omega
  · rintro cfg st b rfl htr
    cases htr
    simp [executeRequest]

/-- Witness for C5: a concrete 404 rejection yields a non-success
status and carries the remote body. -/
theorem executeRequest_failure_contract_witness :
    isSuccessStatusCode (executeRequest (fun _ => "")
        (Except.ok { method := "GET", url := "https://example.test",
                     headers := [] })
        (TransportOutcome.axiosError (some (404, some Json.null)))).status
      = false := by
  have h := (executeRequest_failure_contract (fun _ => "")
      (Except.ok { method := "GET", url := "https://example.test",
                   headers := [] })
      (TransportOutcome.axiosError (some (404, some Json.null)))
      (by intro st b hst; cases hst; omega)).1 (by rfl)
  exact h

/-- C6: every parameter descriptor the compiler extracts with location
`path` has `required = true`, even when the resolved fragment declares
`required:false` or omits the field; for any other location the
descriptor's flag is exactly the resolved fragment's declared
truthiness. -/
theorem extractParameters_path_required :
    (∀ (specRoot : Option Json) (paramRefs : List Json) (p : ToolParameter),
      p ∈ extractParameters paramRefs specRoot →
      p.loc = "path" → p.required = true) ∧
    (∀ (specRoot : Option Json) (paramRef : Json) (p : ToolParameter),
      extractOne specRoot paramRef = some p →
      ∃ param, resolveParameterRef paramRef specRoot = some param ∧
        p.required = (jsTruthyOpt (param.getField "required")
          || p.loc == "path") ∧
        (p.loc ≠ "path" →
          p.required = jsTruthyOpt (param.getField "required"))) := by
  have hone : ∀ (specRoot : Option Json) (paramRef : Json) (p : ToolParameter),
      extractOne specRoot paramRef = some p →
      ∃ param, resolveParameterRef paramRef specRoot = some param ∧
        p.required = (jsTruthyOpt (param.getField "required")
          || p.loc == "path") ∧
        (p.loc ≠ "path" →
          p.required = jsTruthyOpt (param.getField "required")) := by
    intro specRoot paramRef p h
    unfold extractOne at h
    split at h
    · exact absurd h (by simp)
    next param hres =>
      split at h
      · exact absurd h (by simp)
      next schema hs =>
        split at h
        next locS nameS hin hname =>
          split at h
          next hguard =>
            cases h
            refine ⟨param, hres, ?_, ?_⟩
            · simp [hin]
            · intro hne
              simp only [hin]
              have : (locS == "path") = false := by
                simpa using hne
              simp [this]
          · exact absurd h (by simp)
        next hother => exact absurd h (by simp)
  constructor
  · intro specRoot paramRefs p hmem hpath
    unfold extractParameters at hmem
    obtain ⟨a, _, ha⟩ := List.mem_filterMap.mp hmem
    obtain ⟨param, _, hreq, _⟩ := hone specRoot a p ha
    rw [hreq, hpath]
    simp
  · exact hone

/-- Witness for C6: a concrete path parameter declared
`required:false` is forced required. -/
theorem extractParameters_path_required_witness :
    extractParameters [pathFragDemo] none = [pathParamDemo] ∧
      pathParamDemo.required = true :=
  ⟨rfl,
    extractParameters_path_required.1 none [pathFragDemo] pathParamDemo
      (List.mem_singleton.mpr rfl) rfl⟩

theorem isLargeBatchConfirmed_true_iff (table : TokenTable) (confirm : Bool)
    (token toolName : String) (count : Nat) (now : Int) :
    (isLargeBatchConfirmed table confirm token toolName count now).1 = true ↔
    (confirm = true ∧ token ≠ "" ∧ ∃ r, tableGet table token = some r ∧
      now < r.expiresAt ∧ r.toolName = toolName ∧ r.count = count) := by
  unfold isLargeBatchConfirmed
  cases confirm with
  | false => simp
  | true =>
    by_cases ht : token = ""
    · simp [ht]
    · have hbe : (token == "") = false := by simpa using ht
      simp only [Bool.not_true, Bool.false_or, hbe, Bool.false_eq_true,
        if_false]
      rcases hget : tableGet table token with _ | record
      · constructor
        · intro h
          simp at h
        · rintro ⟨-, -, r, hr, -⟩
          cases hr
      · by_cases hexp : record.expiresAt ≤ now
        · simp only [if_pos hexp]
          constructor
          · intro h
            simp at h
          · rintro ⟨-, -, r, hr, hlt, -, -⟩
            cases hr
            omega
        · simp only [if_neg hexp]
          by_cases hname : record.toolName = toolName
          · by_cases hcount : record.count = count
            · have hb : (record.toolName != toolName
                  || record.count != count) = false := by
                simp [hname, hcount]
              simp only [hb, Bool.false_eq_true, if_false]
              constructor
              · intro _
                exact ⟨trivial, ht, record, rfl, by omega, hname, hcount⟩
              · intro _
                trivial
            · have hb : (record.toolName != toolName
                  || record.count != count) = true := by
                simp [hcount]
              simp only [hb, if_true]
              constructor
              · intro h
                simp at h
              · rintro ⟨-, -, r, hr, -, -, hrc⟩
                cases hr
                exact (hcount hrc).elim
          · have hb : (record.toolName != toolName
                || record.count != count) = true := by
              simp [hname]
            simp only [hb, if_true]
            constructor
            · intro h
              simp at h
            · rintro ⟨-, -, r, hr, -, hrt, -⟩
              cases hr
              exact (hname hrt).elim

theorem isLargeBatchConfirmed_deletes (table : TokenTable) (confirm : Bool)
    (token toolName : String) (count : Nat) (now : Int) :
    (isLargeBatchConfirmed table confirm token toolName count now).1 = true →
    tableGet (isLargeBatchConfirmed table confirm token toolName count now).2
      token = none := by
  intro hok
  obtain ⟨hc, ht, r, hget, hlt, hrt, hrc⟩ :=
    (isLargeBatchConfirmed_true_iff table confirm token toolName count now).mp hok
  subst hc
  unfold isLargeBatchConfirmed
  have hbe : (token == "") = false := by simpa using ht
  simp only [Bool.not_true, Bool.false_or, hbe, Bool.false_eq_true, if_false,
    hget]
  rw [if_neg (by omega : ¬ r.expiresAt ≤ now)]
  have hb : (r.toolName != toolName || r.count != count) = false := by
    simp [hrt, hrc]
  simp only [hb, Bool.false_eq_true, if_false]
  exact tableGet_tableDelete_self table token

/-- C3: a supplied large-batch token is accepted iff the confirmation
flag is set, the token is non-empty, its record exists in the table, is
unexpired at lookup time, and is bound to exactly this tool name and
item count; on acceptance the record is deleted immediately — the table
the dispatcher continues with lacks it before any item runs, and the
final table never depends on how the items turn out. -/
theorem isLargeBatchConfirmed_contract :
    ∀ (table : TokenTable) (confirm : Bool) (token toolName : String)
      (count : Nat) (now : Int),
      ((isLargeBatchConfirmed table confirm token toolName count now).1 = true ↔
        confirm = true ∧ token ≠ "" ∧
        ∃ r, tableGet table token = some r ∧ now < r.expiresAt ∧
          r.toolName = toolName ∧ r.count = count) ∧
      ((isLargeBatchConfirmed table confirm token toolName count now).1 = true →
        tableGet
          (isLargeBatchConfirmed table confirm token toolName count now).2
          token = none) ∧
      (∀ (registryNames : List String)
        (validate validate2 : Json → Except String Json)
        (exec exec2 : Json → Except String ApiCallResult)
        (rawToolName : String) (items : List Json)
        (failFast failFast2 : Bool) (fresh : String),
        (batchDispatch registryNames validate exec rawToolName items failFast
            confirm token table now fresh).2 =
          (batchDispatch registryNames validate2 exec2 rawToolName items
            failFast2 confirm token table now fresh).2) := by
  intro table confirm token toolName count now
  refine ⟨isLargeBatchConfirmed_true_iff table confirm token toolName count now,
    isLargeBatchConfirmed_deletes table confirm token toolName count now, ?_⟩
  intro registryNames validate validate2 exec exec2 rawToolName items
    failFast failFast2 fresh
  unfold batchDispatch
  cases hr : registryNames.contains (normalizeToolName rawToolName) with
  | false =>
    have hm : normalizeToolName rawToolName ∉ registryNames := by
      simpa using hr
    simp [hm]
  | true =>
    have hm : normalizeToolName rawToolName ∈ registryNames := by
      simpa using hr
    by_cases hl : items.length > largeBatchThreshold
    · cases hg : (isLargeBatchConfirmed table confirm token
          (normalizeToolName rawToolName) items.length now).1 <;>
        simp [hm, hl, hg]
    · simp [hm, hl]

/-- Witness for C3: a concrete matching unexpired token is accepted
and its record is gone from the resulting table. -/
theorem isLargeBatchConfirmed_contract_witness :
    tableGet (isLargeBatchConfirmed
        [("tok", { toolName := "t", count := 2, expiresAt := (10 : Int) })]
        true "tok" "t" 2 0).2 "tok" = none :=
  (isLargeBatchConfirmed_contract
      [("tok", { toolName := "t", count := 2, expiresAt := (10 : Int) })]
      true "tok" "t" 2 0).2.1 rfl

theorem isLargeBatchConfirmed_accept_eq (table : TokenTable) (confirm : Bool)
    (token toolName : String) (count : Nat) (now : Int) :
    (isLargeBatchConfirmed table confirm token toolName count now).1 = true →
    isLargeBatchConfirmed table confirm token toolName count now =
      (true, tableDelete table token) := by
  intro hok
  obtain ⟨hc, ht, r, hget, hlt, hrt, hrc⟩ :=
    (isLargeBatchConfirmed_true_iff table confirm token toolName count now).mp hok
  subst hc
  unfold isLargeBatchConfirmed
  have hbe : (token == "") = false := by simpa using ht
  simp only [Bool.not_true, Bool.false_or, hbe, Bool.false_eq_true, if_false,
    hget]
  rw [if_neg (by omega : ¬ r.expiresAt ≤ now)]
  have hb : (r.toolName != toolName || r.count != count) = false := by
    simp [hrt, hrc]
  simp only [hb, Bool.false_eq_true, if_false]

theorem isLargeBatchConfirmed_miss (table : TokenTable)
    (token toolName : String) (count : Nat) (now : Int)
    (hnone : tableGet table token = none) (ht : token ≠ "") :
    isLargeBatchConfirmed table true token toolName count now =
      (false, table) := by
  unfold isLargeBatchConfirmed
  have hbe : (token == "") = false := by simpa using ht
  simp [hbe, hnone]

/-- C2: a batch of exactly 200 items with no confirmation fields
executes every item immediately with the table untouched; a batch of
201 items without a valid token short-circuits into a
confirmation-required outcome — no item outcome list is produced — and
mints a fresh token bound to the normalized tool name and the item
count, expiring five minutes after now; resubmitting that token with
the identical tool name and count before expiry executes all 201 items
and consumes the token; and submitting the same token once more is
rejected with a new confirmation-required outcome. -/
theorem batchDispatch_confirmation_protocol :
    ∀ (registryNames : List String) (validate : Json → Except String Json)
      (exec : Json → Except String ApiCallResult) (rawToolName : String)
      (items200 items201 : List Json) (table : TokenTable)
      (now now2 now3 : Int) (fresh fresh2 fresh3 : String),
      registryNames.contains (normalizeToolName rawToolName) = true →
      items200.length = 200 →
      items201.length = 201 →
      fresh ≠ "" →
      now2 < now + largeBatchTokenTtlMs →
      (batchDispatch registryNames validate exec rawToolName items200 false
          false "" table now fresh =
        (BatchOutcome.executed (normalizeToolName rawToolName) 200
          (runBatchItems validate exec false 0 items200), table) ∧
       (runBatchItems validate exec false 0 items200).length = 200) ∧
      (batchDispatch registryNames validate exec rawToolName items201 false
          false "" table now fresh =
        (BatchOutcome.confirmationRequired (normalizeToolName rawToolName)
          201 fresh,
         issueLargeBatchToken table fresh (normalizeToolName rawToolName)
           201 now) ∧
       tableGet (issueLargeBatchToken table fresh
           (normalizeToolName rawToolName) 201 now) fresh =
         some { toolName := normalizeToolName rawToolName, count := 201,
                expiresAt := now + largeBatchTokenTtlMs }) ∧
      (batchDispatch registryNames validate exec rawToolName items201 false
          true fresh
          (issueLargeBatchToken table fresh (normalizeToolName rawToolName)
            201 now) now2 fresh2 =
        (BatchOutcome.executed (normalizeToolName rawToolName) 201
          (runBatchItems validate exec false 0 items201),
         tableDelete (issueLargeBatchToken table fresh
           (normalizeToolName rawToolName) 201 now) fresh) ∧
       (runBatchItems validate exec false 0 items201).length = 201) ∧
      (batchDispatch registryNames validate exec rawToolName items201 false
          true fresh
          (tableDelete (issueLargeBatchToken table fresh
            (normalizeToolName rawToolName) 201 now) fresh) now3 fresh3 =
        (BatchOutcome.confirmationRequired (normalizeToolName rawToolName)
          201 fresh3,
         issueLargeBatchToken
           (tableDelete (issueLargeBatchToken table fresh
             (normalizeToolName rawToolName) 201 now) fresh)
           fresh3 (normalizeToolName rawToolName) 201 now3)) := by
  intro registryNames validate exec rawToolName items200 items201 table
    now now2 now3 fresh fresh2 fresh3 hreg h200 h201 hfresh hnow2
  have hm : normalizeToolName rawToolName ∈ registryNames := by
    simpa using hreg
  refine ⟨⟨?_, ?_⟩, ⟨?_, ?_⟩, ⟨?_, ?_⟩, ?_⟩
  · have hl : ¬ largeBatchThreshold < 200 := by decide
    unfold batchDispatch
    simp [hm, hl, h200]
  · rw [runBatchItems_length validate exec 0 items200, h200]
  · have hl : largeBatchThreshold < 201 := by decide
    have hgate : isLargeBatchConfirmed table false ""
        (normalizeToolName rawToolName) 201 now = (false, table) := rfl
    unfold batchDispatch
    simp [hm, hl, hgate, h201]
  · unfold issueLargeBatchToken
    exact tableGet_tableSet_self table fresh _
  · have hl : largeBatchThreshold < 201 := by decide
    have hget : tableGet (issueLargeBatchToken table fresh
        (normalizeToolName rawToolName) 201 now) fresh =
        some { toolName := normalizeToolName rawToolName, count := 201,
               expiresAt := now + largeBatchTokenTtlMs } := by
      unfold issueLargeBatchToken
      exact tableGet_tableSet_self table fresh _
    have hacc : (isLargeBatchConfirmed
        (issueLargeBatchToken table fresh (normalizeToolName rawToolName)
          201 now) true fresh (normalizeToolName rawToolName)
        201 now2).1 = true := by
      refine (isLargeBatchConfirmed_true_iff _ _ _ _ _ _).mpr
        ⟨rfl, hfresh, _, hget, ?_, rfl, rfl⟩
      simpa using hnow2
    have heq := isLargeBatchConfirmed_accept_eq _ _ _ _ _ _ hacc
    unfold batchDispatch
    simp [hm, hl, heq, h201]
  · rw [runBatchItems_length validate exec 0 items201, h201]
  · have hl : largeBatchThreshold < 201 := by decide
    have hnone : tableGet (tableDelete (issueLargeBatchToken table fresh
        (normalizeToolName rawToolName) 201 now) fresh) fresh = none :=
      tableGet_tableDelete_self _ fresh
    have hgate := isLargeBatchConfirmed_miss _ fresh
      (normalizeToolName rawToolName) 201 now3 hnone hfresh
    unfold batchDispatch
    simp [hm, hl, hgate, h201]

/-- Witness for C2: a concrete 201-item batch of a registered tool with
no confirmation fields yields the confirmation-required outcome and the
minted token. -/
theorem batchDispatch_confirmation_protocol_witness :
    batchDispatch ["t"] (fun j => Except.ok j)
        (fun _ => Except.ok demoApiResult) "t" (List.replicate 201 Json.null)
        false false "" [] 0 "tok" =
      (BatchOutcome.confirmationRequired (normalizeToolName "t") 201 "tok",
       issueLargeBatchToken [] "tok" (normalizeToolName "t") 201 0) :=
  ((batchDispatch_confirmation_protocol ["t"] (fun j => Except.ok j)
      (fun _ => Except.ok demoApiResult) "t" (List.replicate 200 Json.null)
      (List.replicate 201 Json.null) [] 0 1 2 "tok" "tok2" "tok3"
      (by decide) (by rw [List.length_replicate]) (by rw [List.length_replicate])
      (by decide) (by norm_num [largeBatchTokenTtlMs])).2.1).1

/-- C8: schema synthesis is total — `openAPISchemaToZod` is a
terminating function on arbitrarily nested fragments (its well-founded
recursion is part of this definition's acceptance), every fragment it
cannot interpret (absent/`null`, non-object, or unrecognized `type`)
maps to the accept-anything validator, and the whole-tool validator
construction always yields an object validator, so compilation never
fails on a schema. -/
theorem openAPISchemaToZod_total_fallback :
    (∀ j : Json, interpretableFragment j = true ∨
      openAPISchemaToZod j = ZodType.any) ∧
    (∀ tool : GeneratedTool, ∃ shape policy,
      buildZodSchema tool = ZodType.object shape policy) := by
  constructor
  · intro j
    by_cases hi : interpretableFragment j = true
    · left
      exact hi
    · right
      cases j with
      | obj fields =>
        rw [openAPISchemaToZod.eq_def]
        simp only []
        rcases hget : jsonLookup fields "type" with _ | v
        · simp [hget]
        · cases v with
          | str t =>
            have ht : ¬(t = "string" ∨ t = "number" ∨ t = "integer" ∨
                t = "boolean" ∨ t = "array" ∨ t = "object") := by
              intro hcon
              apply hi
              simp only [interpretableFragment, hget]
              rcases hcon with h | h | h | h | h | h <;> simp [h]
            push_neg at ht
            obtain ⟨h1, h2, h3, h4, h5, h6⟩ := ht
            simp [hget, h1, h2, h3, h4, h5, h6]
          | null => simp [hget]
          | bool b => simp [hget]
          | num n => simp [hget]
          | arr es => simp [hget]
          | obj fs => simp [hget]
      | null => rw [openAPISchemaToZod.eq_def]
      | bool b => rw [openAPISchemaToZod.eq_def]
      | num n => rw [openAPISchemaToZod.eq_def]
      | str s => rw [openAPISchemaToZod.eq_def]
      | arr es => rw [openAPISchemaToZod.eq_def]
  · intro tool
    exact ⟨_, _, rfl⟩

/-- Witness for C8: a concrete unrecognized fragment degrades to the
accept-anything validator (via the theorem's fallback disjunction). -/
theorem openAPISchemaToZod_total_fallback_witness :
    interpretableFragment (Json.str "free-form") = true ∨
      openAPISchemaToZod (Json.str "free-form") = ZodType.any :=
  openAPISchemaToZod_total_fallback.1 (Json.str "free-form")

theorem toolFrame_refl (t : GeneratedTool) : ToolFrame t t := by
  unfold ToolFrame
  exact ⟨rfl, rfl, rfl, rfl, rfl, rfl, rfl, rfl, rfl⟩

theorem toolFrame_baseUrl (t : GeneratedTool) (u : String) :
    ToolFrame t { t with baseUrl := u } := by
  unfold ToolFrame
  exact ⟨rfl, rfl, rfl, rfl, rfl, rfl, rfl, rfl, rfl⟩

theorem toolFrame_trans {a b c : GeneratedTool} (h1 : ToolFrame a b)
    (h2 : ToolFrame b c) : ToolFrame a c := by
  unfold ToolFrame at *
  obtain ⟨x1, x2, x3, x4, x5, x6, x7, x8, x9⟩ := h1
  obtain ⟨y1, y2, y3, y4, y5, y6, y7, y8, y9⟩ := h2
  exact ⟨y1.trans x1, y2.trans x2, y3.trans x3, y4.trans x4, y5.trans x5,
    y6.trans x6, y7.trans x7, y8.trans x8, y9.trans x9⟩


theorem updateToolBaseUrls_eq (resolve : ParsedSpec → String → String)
    (env : List (String × String)) :
    ∀ (specs : List ParsedSpec) (registry : List (String × RegEntry)),
      updateToolBaseUrls resolve env specs registry =
        (specs.map (updateOneSpec resolve env),
         registry.map (fun e =>
           specs.foldl (updateRegEntryStep resolve env) e)) := by
  intro specs
  induction specs with
  | nil =>
    intro registry
    simp [updateToolBaseUrls]
  | cons spec rest ih =>
    intro registry
    rcases hurl : resolveServerUrl spec.apiName env with _ | url
    · simp only [updateToolBaseUrls, hurl, ih, List.map_cons, List.foldl_cons,
        updateOneSpec, updateRegEntryStep]
    · simp only [updateToolBaseUrls, hurl, ih, List.map_cons, List.foldl_cons,
        updateOneSpec, updateRegEntryStep, List.map_map, Function.comp_def]

theorem specFrame_updateOneSpec (resolve : ParsedSpec → String → String)
    (env : List (String × String)) (s : ParsedSpec) :
    SpecFrame resolve env s (updateOneSpec resolve env s) := by
  unfold SpecFrame updateOneSpec
  rcases hurl : resolveServerUrl s.apiName env with _ | url
  · exact ⟨rfl, rfl, rfl,
      List.forall₂_same.mpr (fun t _ => toolFrame_refl t),
      fun _ => rfl,
      fun url hu => Option.noConfusion hu⟩
  · refine ⟨rfl, rfl, rfl, ?_, ?_, ?_⟩
    · exact List.forall₂_map_right_iff.mpr
        (List.forall₂_same.mpr (fun t _ => toolFrame_baseUrl t _))
    · intro hnone
      exact Option.noConfusion hnone
    · intro url2 hu2
      injection hu2 with h
      subst h
      rfl

theorem regFrame_foldl_step (resolve : ParsedSpec → String → String)
    (env : List (String × String)) (e : String × RegEntry) (s : ParsedSpec) :
    (updateRegEntryStep resolve env e s).1 = e.1 ∧
    (updateRegEntryStep resolve env e s).2.specApiName = e.2.specApiName ∧
    ToolFrame e.2.tool (updateRegEntryStep resolve env e s).2.tool := by
  unfold updateRegEntryStep
  rcases hurl : resolveServerUrl s.apiName env with _ | url
  · exact ⟨rfl, rfl, toolFrame_refl _⟩
  · by_cases hm : e.2.specApiName = s.apiName
    · simp only [if_pos hm]
      exact ⟨by trivial, by trivial, toolFrame_baseUrl _ _⟩
    · simp only [if_neg hm]
      exact ⟨by trivial, by trivial, toolFrame_refl _⟩

theorem regFrame_foldl (resolve : ParsedSpec → String → String)
    (env : List (String × String)) :
    ∀ (specs : List ParsedSpec) (e : String × RegEntry),
      (specs.foldl (updateRegEntryStep resolve env) e).1 = e.1 ∧
      (specs.foldl (updateRegEntryStep resolve env) e).2.specApiName =
        e.2.specApiName ∧
      ToolFrame e.2.tool
        (specs.foldl (updateRegEntryStep resolve env) e).2.tool ∧
      ((∀ s ∈ specs, s.apiName = e.2.specApiName →
          resolveServerUrl s.apiName env = none) →
        specs.foldl (updateRegEntryStep resolve env) e = e) := by
  intro specs
  induction specs with
  | nil =>
    intro e
    exact ⟨rfl, rfl, toolFrame_refl _, fun _ => rfl⟩
  | cons spec rest ih =>
    intro e
    rw [List.foldl_cons]
    obtain ⟨hs1, hs2, hs3⟩ := regFrame_foldl_step resolve env e spec
    obtain ⟨ih1, ih2, ih3, _⟩ := ih (updateRegEntryStep resolve env e spec)
    refine ⟨ih1.trans hs1, ih2.trans hs2, toolFrame_trans hs3 ih3, ?_⟩
    intro hall
    have hstepid : updateRegEntryStep resolve env e spec = e := by
      unfold updateRegEntryStep
      rcases hurl : resolveServerUrl spec.apiName env with _ | url
      · rfl
      · by_cases hm : e.2.specApiName = spec.apiName
        · exact absurd (hall spec (List.mem_cons_self _ _) hm.symm)
            (by simp [hurl])
        · simp [hm]
    rw [hstepid]
    exact (ih e).2.2.2 (fun s hs h => hall s (List.mem_cons_of_mem _ hs) h)

/-- C9: a hot-reload refresh both *performs* the base-URL push and
*preserves everything else*. The refresh equals, spec for spec, the map
that rewrites the base-URL field of every tool of each API whose
`{NAME}_SERVER_URL` is set to that spec's resolved URL, and, entry for
entry, the fold that pushes each matching spec's resolved URL onto the
registry entry's stored tool — so the resolved URL reaches every
already-compiled Tool Definition of that API in both the parsed-spec
copy and the registry. Every other field of every Tool Definition is
unchanged, and specs and registry entries of APIs without a set
`{NAME}_SERVER_URL` are unchanged entirely. The resolver is quantified,
so all of this holds whatever base URL is computed. -/
theorem updateToolBaseUrls_effect_frame :
    ∀ (resolve : ParsedSpec → String → String) (env : List (String × String))
      (specs : List ParsedSpec) (registry : List (String × RegEntry)),
      updateToolBaseUrls resolve env specs registry =
        (specs.map (updateOneSpec resolve env),
         registry.map (fun e =>
           specs.foldl (updateRegEntryStep resolve env) e)) ∧
      List.Forall₂ (SpecFrame resolve env) specs
        (updateToolBaseUrls resolve env specs registry).1 ∧
      List.Forall₂ (RegFrame resolve env specs) registry
        (updateToolBaseUrls resolve env specs registry).2 := by
  intro resolve env specs registry
  have heq := updateToolBaseUrls_eq resolve env specs registry
  refine ⟨heq, ?_, ?_⟩
  · rw [heq]
    exact List.forall₂_map_right_iff.mpr
      (List.forall₂_same.mpr (fun s _ => specFrame_updateOneSpec resolve env s))
  · rw [heq]
    refine List.forall₂_map_right_iff.mpr
      (List.forall₂_same.mpr (fun e _ => ?_))
    obtain ⟨h1, h2, h3, h4⟩ := regFrame_foldl resolve env specs e
    exact ⟨h1, h2, h3, h4, rfl⟩

/-- Witness for C9: at a concrete environment, spec and registry the
refresh writes the new base URL into the tool of the parsed-spec copy
and of the registry entry alike (the effect conjunct, evaluated). -/
theorem updateToolBaseUrls_effect_frame_witness :
    updateToolBaseUrls (fun _ u => u)
        [("CARS_SERVER_URL", "https://cars.example.test")]
        [carsParsedSpec]
        [("cars_addCar", { specApiName := "cars", tool := carsAddCarTool })] =
      ([{ carsParsedSpec with
          tools := [{ carsAddCarTool with
                      baseUrl := "https://cars.example.test" }] }],
       [("cars_addCar",
         { specApiName := "cars",
           tool := { carsAddCarTool with
                     baseUrl := "https://cars.example.test" } })]) :=
  ((updateToolBaseUrls_effect_frame (fun _ u => u)
      [("CARS_SERVER_URL", "https://cars.example.test")]
      [carsParsedSpec]
      [("cars_addCar", { specApiName := "cars",
                         tool := carsAddCarTool })]).1).trans rfl
